import Mathlib

/-!
Verification of the aedes-persistence-mysql persistence layer (src/index.js)
against its natural-language specification.

The development shallowly embeds:
* the MQTT-filter-to-REGEXP translation used by `createRetainedStreamCombi`
  and `subscriptionsByTopic` (the JS builds a MySQL REGEXP string by
  `'^' + pattern.replace(/\+/g, '[^/]+').replace(/#/g, '.*') + '$'`), together
  with a matcher for the fragment of POSIX regular expressions those strings
  use (literals, `.`, `[^/]` classes, postfix `*` and `+`, full anchoring);
* the five tables as Lean lists of rows, with the readiness gate, the
  `ON DUPLICATE KEY UPDATE` upserts, and the SELECT queries of each public
  operation.
-/

namespace AedesMySQL

/-! ## Regex fragment: atoms, pieces, and a derivative-style matcher -/

/-- An atom of the regex fragment occurring in the generated patterns:
a literal character, `.` (any character), or the class `[^/]`. -/
inductive RAtom where
  | lit (c : Char)
  | anyChar
  | negSlash
deriving DecidableEq, Repr

def matchAtom : RAtom → Char → Bool
  | .lit c, d => c = d
  | .anyChar, _ => true
  | .negSlash, d => d ≠ '/'

/-- A piece of a regex: an atom, an atom with postfix `*`, or with postfix `+`. -/
inductive RPiece where
  | one (a : RAtom)
  | star (a : RAtom)
  | more (a : RAtom)
deriving DecidableEq, Repr

/-- Whether a sequence of pieces can match the empty string. -/
def nullable : List RPiece → Bool
  | [] => true
  | .one _ :: _ => false
  | .more _ :: _ => false
  | .star _ :: ps => nullable ps

/-- One-character derivative of a piece sequence: all piece sequences that can
remain after the sequence consumes `c`. -/
def stepPiece (c : Char) : List RPiece → List (List RPiece)
  | [] => []
  | .one a :: ps => if matchAtom a c then [ps] else []
  | .more a :: ps => if matchAtom a c then [.star a :: ps] else []
  | .star a :: ps => (if matchAtom a c then [.star a :: ps] else []) ++ stepPiece c ps

def stepSet (c : Char) (S : List (List RPiece)) : List (List RPiece) :=
  (S.map (stepPiece c)).flatten

/-- Run the matcher: consume the whole input from a set of states. -/
def runMatch (S : List (List RPiece)) : List Char → Bool
  | [] => S.any nullable
  | c :: cs => runMatch (stepSet c S) cs

/-- Anchored (full-string) match of a piece sequence against a string. -/
def piecesMatch (ps : List RPiece) (cs : List Char) : Bool :=
  runMatch [ps] cs

/-! ## The translation performed by the source

`subscriptionsByTopic` (index.js:293-296) and `createRetainedStreamCombi`
(index.js:190-193) both compute
`'^' + pattern.replace(/\+/g, '[^/]+').replace(/#/g, '.*') + '$'`
and hand the string to MySQL `REGEXP`. `replaceChar` models the global
single-character replace; `parseB` models how the regex engine reads the
resulting pattern (unsupported regex syntax, e.g. a dangling `*`, parses to
`none`, standing for a pattern the engine rejects). -/

def replaceChar (c : Char) (r : List Char) (s : List Char) : List Char :=
  (s.map (fun x => if x = c then r else [x])).flatten

/-- The characters of the regex fragment that are not plain literals. -/
def metaChars : List Char :=
  ['^', '$', '.', '*', '+', '[', ']', '\\', '(', ')', '|', '\x7b', '\x7d', '?']

def isPlainChar (c : Char) : Bool := ¬ metaChars.contains c

/-- Parse the body of a pattern (the part between `^` and `$`), accumulating
pieces in reverse: an atom is the class `[^/]`, a dot, or a plain literal
character; a postfix `*` or `+` turns the previous atom into a starred or
plussed piece (a dangling or doubled postfix operator is a syntax error). -/
def parseB : List RPiece → List Char → Option (List RPiece)
  | acc, [] => some acc.reverse
  | acc, '[' :: rest =>
      match rest with
      | '^' :: '/' :: ']' :: rest2 => parseB (.one .negSlash :: acc) rest2
      | _ => none
  | acc, c :: rest =>
      if c = '*' then
        match acc with
        | .one a :: acc2 => parseB (.star a :: acc2) rest
        | _ => none
      else if c = '+' then
        match acc with
        | .one a :: acc2 => parseB (.more a :: acc2) rest
        | _ => none
      else if c = '.' then parseB (.one .anyChar :: acc) rest
      else if isPlainChar c then parseB (.one (.lit c) :: acc) rest
      else none

def parseBody (l : List Char) : Option (List RPiece) :=
  parseB [] l

/-- A full anchored pattern: a leading `^`, a body, and a trailing `$`. -/
def parseAnchored (l : List Char) : Option (List RPiece) :=
  match l with
  | '^' :: rest => if rest.getLast? = some '$' then parseBody rest.dropLast else none
  | _ => none

/-- The body of the regex string the source builds:
`pattern.replace(/\+/g, '[^/]+').replace(/#/g, '.*')`. -/
def bodyChars (filter : List Char) : List Char :=
  replaceChar '#' ['.', '*'] (replaceChar '+' ['[', '^', '/', ']', '+'] filter)

/-- The regex string the source builds from an MQTT filter
(index.js:191-193 and index.js:294-296). -/
def regexOfFilter (filter : List Char) : List Char :=
  '^' :: bodyChars filter ++ ['$']

def filterPieces (filter : List Char) : Option (List RPiece) :=
  parseAnchored (regexOfFilter filter)

/-- Whether the stored topic `topic` is selected by `topic REGEXP <compiled filter>`. -/
def topicMatchesL (filter topic : List Char) : Bool :=
  match filterPieces filter with
  | some ps => piecesMatch ps topic
  | none => false

def topicMatches (filter topic : String) : Bool :=
  topicMatchesL filter.toList topic.toList

/-- Characters that are literal both for MQTT (no `+`/`#` wildcard) and for the
regex fragment (no metacharacter). -/
def plainTopicChar (c : Char) : Bool := isPlainChar c && c ≠ '#'

/-- The piece a single filter character compiles to (when the whole filter is
made of plain characters and wildcards). -/
def pieceOfChar (c : Char) : RPiece :=
  if c = '+' then .more .negSlash
  else if c = '#' then .star .anyChar
  else .one (.lit c)

def litPieces (l : List Char) : List RPiece :=
  l.map (fun c => RPiece.one (RAtom.lit c))

/-- The chunk of regex characters a single filter character is replaced by. -/
def bodyChunk (c : Char) : List Char :=
  if c = '+' then ['[', '^', '/', ']', '+']
  else if c = '#' then ['.', '*']
  else [c]

/-- A filter character the compiled-pattern analysis covers: a plain literal
or one of the MQTT wildcards (`#` counts as plain for the regex fragment). -/
def goodFilterChar (c : Char) : Bool := isPlainChar c || c = '+'

/-- `PlusInst f t` says the topic `t` instantiates the filter `f`: every
literal character matches itself and every `+` wildcard stands for exactly one
nonempty separator-free segment. -/
inductive PlusInst : List Char → List Char → Prop
  | nil : PlusInst [] []
  | lit {c : Char} {f t : List Char} : plainTopicChar c = true →
      PlusInst f t → PlusInst (c :: f) (c :: t)
  | seg {s f t : List Char} : s ≠ [] → (∀ d ∈ s, d ≠ '/') →
      PlusInst f t → PlusInst ('+' :: f) (s ++ t)

/-! ## Data model: the five tables of `_createTables` (index.js:64-153)

Rows are modelled as structures; `payload` bytes are abstracted as a `String`.
Each table is a Lean list of rows; the `UNIQUE` constraints of the schema are
carried as `Pairwise` hypotheses in the theorems. `aedes_outgoing`'s
`AUTO_INCREMENT` surrogate key is modelled by `nextOutId`. -/

structure SubRow where
  clientId : String
  topic : String
  qos : Nat
deriving DecidableEq, Repr

structure RetainedRow where
  topic : String
  payload : String
  qos : Nat
deriving DecidableEq, Repr

structure OutRow where
  id : Nat
  clientId : String
  messageId : Option Nat
  topic : String
  payload : String
  qos : Nat
  retain : Bool
  dup : Bool
deriving DecidableEq, Repr

structure InRow where
  clientId : String
  messageId : Nat
  topic : String
  payload : String
  qos : Nat
deriving DecidableEq, Repr

structure WillRow where
  clientId : String
  topic : String
  payload : String
  qos : Nat
  retain : Bool
  brokerId : Option String
deriving DecidableEq, Repr

/-- The in-memory lifecycle flags (`_ready`, `_closed`) plus the five tables. -/
structure State where
  ready : Bool
  closed : Bool
  subscriptions : List SubRow
  retained : List RetainedRow
  outgoing : List OutRow
  nextOutId : Nat
  incoming : List InRow
  wills : List WillRow
deriving DecidableEq, Repr

/-- A retained-message packet (topic, payload, qos). -/
structure RPacket where
  topic : String
  payload : String
  qos : Nat
deriving DecidableEq, Repr

/-- An outgoing packet as handed to `outgoingEnqueueCombi` / read back from
`outgoingStream`. -/
structure OutPacket where
  messageId : Option Nat
  topic : String
  payload : String
  qos : Nat
  retain : Bool
  dup : Bool
deriving DecidableEq, Repr

structure InPacket where
  messageId : Nat
  topic : String
  payload : String
  qos : Nat
deriving DecidableEq, Repr

structure WillPacket where
  topic : String
  payload : String
  qos : Nat
  retain : Bool
deriving DecidableEq, Repr

/-- A client object; `broker` is `client.broker.id` when the broker field is
present, `none` when it is absent (index.js:506). -/
structure Client where
  id : String
  broker : Option String
deriving DecidableEq, Repr

/-- The error every gated operation fails with (index.js:158 and analogues). -/
def notReadyMsg : String := "MySQL persistence not ready"

/-- `INSERT ... ON DUPLICATE KEY UPDATE` against a table whose rows are unique
per `key`: if a row with key `k` exists, update every such row in place,
otherwise append the fresh row. -/
def upsertByKey {α κ : Type} [DecidableEq κ]
    (key : α → κ) (k : κ) (update : α → α) (fresh : α) (l : List α) : List α :=
  if l.any (fun r => key r = k) then
    l.map (fun r => if key r = k then update r else r)
  else l ++ [fresh]

/-! ## The public operations (index.js:156-638)

Every operation first checks `this._ready` and fails with the not-ready error
otherwise; streams are modelled as the full list of rows they push (`.ok`) or
the error they are destroyed with (`.error`). -/

/-- `storeRetained` (index.js:156-170). -/
def storeRetained (st : State) (p : RPacket) : Except String State :=
  if st.ready then
    .ok { st with retained := (upsertByKey (fun r => r.topic) p.topic
      (fun r => { r with payload := p.payload, qos := p.qos })
      ⟨p.topic, p.payload, p.qos⟩ st.retained) }
  else .error notReadyMsg

/-- `createRetainedStreamCombi` (index.js:173-209): one SELECT whose WHERE is
the OR of `topic REGEXP <compiled pattern>` over all patterns. -/
def createRetainedStreamCombi (st : State) (patterns : List String) :
    Except String (List RPacket) :=
  if st.ready then
    .ok ((st.retained.filter (fun r => patterns.any (fun p => topicMatches p r.topic))).map
      (fun r => ⟨r.topic, r.payload, r.qos⟩))
  else .error notReadyMsg

/-- `createRetainedStream` (index.js:631-633). -/
def createRetainedStream (st : State) (pattern : String) : Except String (List RPacket) :=
  createRetainedStreamCombi st [pattern]

/-- `addSubscriptions` (index.js:212-227): bulk upsert keyed by
`(client_id, topic)`. -/
def addSubscriptions (st : State) (client : Client) (subs : List (String × Nat)) :
    Except String State :=
  if st.ready then
    .ok { st with subscriptions := subs.foldl (fun rows s =>
      upsertByKey (fun r => (r.clientId, r.topic)) (client.id, s.1)
        (fun r => { r with qos := s.2 }) ⟨client.id, s.1, s.2⟩ rows) st.subscriptions }
  else .error notReadyMsg

/-- `removeSubscriptions` (index.js:230-246). -/
def removeSubscriptions (st : State) (client : Client) (topics : List String) :
    Except String State :=
  if st.ready then
    if topics.length = 0 then .ok st
    else .ok { st with subscriptions := (st.subscriptions.filter
      (fun r => ¬ (r.clientId = client.id ∧ r.topic ∈ topics))) }
  else .error notReadyMsg

/-- `subscriptionsByClient` (index.js:249-265). -/
def subscriptionsByClient (st : State) (client : Client) :
    Except String (List (String × Nat)) :=
  if st.ready then
    .ok ((st.subscriptions.filter (fun r => r.clientId = client.id)).map
      (fun r => (r.topic, r.qos)))
  else .error notReadyMsg

/-- `countOffline` (index.js:268-285): subscription count and distinct-client count. -/
def countOffline (st : State) : Except String (Nat × Nat) :=
  if st.ready then
    .ok (st.subscriptions.length, (st.subscriptions.map (fun r => r.clientId)).dedup.length)
  else .error notReadyMsg

/-- `subscriptionsByTopic` (index.js:288-310): rows whose stored topic is
selected by `topic REGEXP <compiled pattern>`. -/
def subscriptionsByTopic (st : State) (pattern : String) : Except String (List SubRow) :=
  if st.ready then
    .ok (st.subscriptions.filter (fun r => topicMatches pattern r.topic))
  else .error notReadyMsg

/-- `cleanSubscriptions` (index.js:313-323). -/
def cleanSubscriptions (st : State) (client : Client) : Except String State :=
  if st.ready then
    .ok { st with subscriptions := st.subscriptions.filter (fun r => ¬ r.clientId = client.id) }
  else .error notReadyMsg

/-- JS `packet.messageId || null` (index.js:333): both `undefined` and `0`
are falsy and store SQL NULL. -/
def jsOrNull (m : Option Nat) : Option Nat :=
  match m with
  | some v => if v = 0 then none else some v
  | none => none

/-- `outgoingEnqueueCombi` (index.js:326-353): one appended row per
subscription clientId, with consecutive `AUTO_INCREMENT` ids; an empty
subscription list succeeds without touching the table. -/
def outgoingEnqueueCombi (st : State) (subs : List String) (p : OutPacket) :
    Except String State :=
  if st.ready then
    if subs.length = 0 then .ok st
    else .ok { st with
      outgoing := st.outgoing ++ subs.enum.map (fun e =>
        { id := st.nextOutId + e.1, clientId := e.2, messageId := jsOrNull p.messageId,
          topic := p.topic, payload := p.payload, qos := p.qos,
          retain := p.retain, dup := p.dup }),
      nextOutId := st.nextOutId + subs.length }
  else .error notReadyMsg

/-- `outgoingEnqueue` (index.js:636-638). -/
def outgoingEnqueue (st : State) (sub : String) (p : OutPacket) : Except String State :=
  outgoingEnqueueCombi st [sub] p

/-- `outgoingUpdate` (index.js:356-376): rewrites message id and dup flag of
every row matching `(client_id, topic, payload)`. -/
def outgoingUpdate (st : State) (client : Client) (p : OutPacket) : Except String State :=
  if st.ready then
    .ok { st with outgoing := st.outgoing.map (fun r =>
      if r.clientId = client.id ∧ r.topic = p.topic ∧ r.payload = p.payload then
        { r with messageId := p.messageId, dup := p.dup }
      else r) }
  else .error notReadyMsg

/-- `outgoingClearMessageId` (index.js:379-389): `message_id = NULL` never
compares equal in SQL, so a NULL parameter deletes nothing. -/
def outgoingClearMessageId (st : State) (client : Client) (p : OutPacket) :
    Except String State :=
  if st.ready then
    .ok { st with outgoing := st.outgoing.filter (fun r =>
      ¬ (r.clientId = client.id ∧ p.messageId ≠ none ∧ r.messageId = p.messageId)) }
  else .error notReadyMsg

def insertById (r : OutRow) : List OutRow → List OutRow
  | [] => [r]
  | x :: xs => if r.id ≤ x.id then r :: x :: xs else x :: insertById r xs

/-- `ORDER BY id` of the SELECT in `outgoingStream`. -/
def sortById : List OutRow → List OutRow
  | [] => []
  | x :: xs => insertById x (sortById xs)

/-- `outgoingStream` (index.js:392-420): all rows of the client, ordered by
the surrogate id. -/
def outgoingStream (st : State) (client : Client) : Except String (List OutPacket) :=
  if st.ready then
    .ok ((sortById (st.outgoing.filter (fun r => r.clientId = client.id))).map
      (fun r => { messageId := r.messageId, topic := r.topic, payload := r.payload,
                  qos := r.qos, retain := r.retain, dup := r.dup }))
  else .error notReadyMsg

/-- `incomingStorePacket` (index.js:423-443): upsert keyed by
`(client_id, message_id)`. -/
def incomingStorePacket (st : State) (client : Client) (p : InPacket) :
    Except String State :=
  if st.ready then
    .ok { st with incoming := (upsertByKey (fun r => (r.clientId, r.messageId))
      (client.id, p.messageId)
      (fun r => { r with topic := p.topic, payload := p.payload, qos := p.qos })
      ⟨client.id, p.messageId, p.topic, p.payload, p.qos⟩ st.incoming) }
  else .error notReadyMsg

/-- `incomingGetPacket` (index.js:446-467): the first matching row, or the
"Packet not found" error when none matches. -/
def incomingGetPacket (st : State) (client : Client) (mid : Nat) :
    Except String InPacket :=
  if st.ready then
    match st.incoming.find? (fun r => r.clientId = client.id ∧ r.messageId = mid) with
    | none => .error "Packet not found"
    | some r => .ok ⟨r.messageId, r.topic, r.payload, r.qos⟩
  else .error notReadyMsg

/-- `incomingDelPacket` (index.js:470-480). -/
def incomingDelPacket (st : State) (client : Client) (mid : Nat) : Except String State :=
  if st.ready then
    .ok { st with incoming := (st.incoming.filter
      (fun r => ¬ (r.clientId = client.id ∧ r.messageId = mid))) }
  else .error notReadyMsg

/-- `putWill` (index.js:483-510): upsert keyed by `client_id`, storing
`client.broker ? client.broker.id : null` as the broker id. -/
def putWill (st : State) (client : Client) (p : WillPacket) : Except String State :=
  if st.ready then
    .ok { st with wills := (upsertByKey (fun r => r.clientId) client.id
      (fun r => { r with topic := p.topic, payload := p.payload, qos := p.qos,
                         retain := p.retain, brokerId := client.broker })
      ⟨client.id, p.topic, p.payload, p.qos, p.retain, client.broker⟩ st.wills) }
  else .error notReadyMsg

/-- `getWill` (index.js:513-534): success with `none` when no row exists. -/
def getWill (st : State) (client : Client) : Except String (Option WillPacket) :=
  if st.ready then
    match st.wills.find? (fun r => r.clientId = client.id) with
    | none => .ok none
    | some r => .ok (some ⟨r.topic, r.payload, r.qos, r.retain⟩)
  else .error notReadyMsg

/-- `delWill` (index.js:537-547). -/
def delWill (st : State) (client : Client) : Except String State :=
  if st.ready then
    .ok { st with wills := st.wills.filter (fun r => ¬ r.clientId = client.id) }
  else .error notReadyMsg

/-- `streamWill` (index.js:550-586): `broker_id IN (...)`; in SQL a NULL
`broker_id` never satisfies the IN test, so such rows are never selected. -/
def streamWill (st : State) (brokerIds : List String) : Except String (List WillRow) :=
  if st.ready then
    if brokerIds.length = 0 then .ok []
    else .ok (st.wills.filter (fun r => match r.brokerId with
      | some b => brokerIds.contains b
      | none => false))
  else .error notReadyMsg

/-- `getClientList` (index.js:589-610). -/
def getClientList (st : State) (topic : String) : Except String (List String) :=
  if st.ready then
    .ok ((st.subscriptions.filter (fun r => r.topic = topic)).map (fun r => r.clientId)).dedup
  else .error notReadyMsg

/-- `destroy` (index.js:613-628): idempotent; sets `_closed` and clears
`_ready`; touches no table. -/
def destroy (st : State) : State :=
  if st.closed then st else { st with closed := true, ready := false }

/-! ## Schema provisioning description (`_createTables`, index.js:64-153) -/

/-- The five tables `_createTables` creates (index.js:69-139). -/
def tableNames : List String :=
  ["aedes_subscriptions", "aedes_retained", "aedes_outgoing", "aedes_incoming", "aedes_will"]

/-- The recurring cleanup event of index.js:143-147: its `DO` statement is
`DELETE FROM subscriptions WHERE created_at < DATE_SUB(NOW(), INTERVAL ttl SECOND)`. -/
structure CleanupEvent where
  name : String
  targetTable : String
  olderThanSeconds : Int
deriving DecidableEq, Repr

/-- The event installed when a subscription TTL is configured
(index.js:142-148): JS `this.ttl.subscriptions && this.ttl.subscriptions > 0`. -/
def subscriptionCleanupEvent : Option Int → Option CleanupEvent
  | none => none
  | some t =>
      if 0 < t then some ⟨"aedes_cleanup_subscriptions", "subscriptions", t⟩ else none

/-! ## Concrete states used by counterexamples and witnesses -/

/-- A provisioned instance with empty tables (`_ready` just set,
index.js:57). -/
def emptyReadyState : State :=
  { ready := true, closed := false, subscriptions := [], retained := [],
    outgoing := [], nextOutId := 1, incoming := [], wills := [] }

/-- A freshly constructed instance before `_setup` completes
(index.js:39-40). -/
def initState : State :=
  { ready := false, closed := false, subscriptions := [], retained := [],
    outgoing := [], nextOutId := 1, incoming := [], wills := [] }

/-- A provisioned instance holding one subscription whose topic is `axb`. -/
def subDemoState : State :=
  { emptyReadyState with subscriptions := [⟨"c1", "axb", 0⟩] }

/-! ## Lemmas about the matcher -/

theorem runMatch_nil_states (cs : List Char) :
    runMatch ([] : List (List RPiece)) cs = false := by
  induction cs with
  | nil => rfl
  | cons c cs ih => simpa [runMatch, stepSet] using ih

theorem runMatch_append (S T : List (List RPiece)) (cs : List Char) :
    runMatch (S ++ T) cs = (runMatch S cs || runMatch T cs) := by
  induction cs generalizing S T with
  | nil => simp [runMatch, List.any_append]
  | cons c cs ih =>
      have hstep : stepSet c (S ++ T) = stepSet c S ++ stepSet c T := by
        simp [stepSet]
      simp only [runMatch, hstep, ih]

theorem runMatch_cons (ps : List RPiece) (c : Char) (cs : List Char) :
    runMatch [ps] (c :: cs) = runMatch (stepPiece c ps) cs := by
  simp [runMatch, stepSet]

theorem piecesMatch_nil_iff (cs : List Char) : piecesMatch [] cs = true ↔ cs = [] := by
  cases cs with
  | nil => simp [piecesMatch, runMatch, nullable]
  | cons c cs =>
      simp [piecesMatch, runMatch_cons, stepPiece, runMatch_nil_states]

theorem piecesMatch_one_iff (a : RAtom) (ps : List RPiece) (cs : List Char) :
    piecesMatch (.one a :: ps) cs = true ↔
      ∃ c cs2, cs = c :: cs2 ∧ matchAtom a c = true ∧ piecesMatch ps cs2 = true := by
  cases cs with
  | nil => simp [piecesMatch, runMatch, nullable]
  | cons c cs2 =>
      rw [piecesMatch, runMatch_cons]
      by_cases h : matchAtom a c
      · simp only [stepPiece, if_pos h]
        constructor
        · intro hm
          exact ⟨c, cs2, rfl, h, hm⟩
        · rintro ⟨d, cs3, heq, hd, hm⟩
          injection heq with h1 h2
          subst h1
          subst h2
          exact hm
      · simp only [stepPiece, if_neg h, runMatch_nil_states]
        constructor
        · intro hf; cases hf
        · rintro ⟨d, cs3, heq, hd, hm⟩
          injection heq with h1 h2
          subst h1
          exact absurd hd h

theorem piecesMatch_star_iff (a : RAtom) (ps : List RPiece) (cs : List Char) :
    piecesMatch (.star a :: ps) cs = true ↔
      ∃ s t, cs = s ++ t ∧ (∀ d ∈ s, matchAtom a d = true) ∧ piecesMatch ps t = true := by
  induction cs with
  | nil =>
      constructor
      · intro h
        refine ⟨[], [], rfl, by simp, ?_⟩
        simpa [piecesMatch, runMatch, nullable] using h
      · rintro ⟨s, t, hst, hall, hmt⟩
        obtain ⟨rfl, rfl⟩ := List.append_eq_nil.mp hst.symm
        simpa [piecesMatch, runMatch, nullable] using hmt
  | cons c cs ih =>
      rw [piecesMatch, runMatch_cons]
      simp only [stepPiece]
      rw [runMatch_append]
      have h2 : runMatch (stepPiece c ps) cs = piecesMatch ps (c :: cs) :=
        (runMatch_cons ps c cs).symm
      by_cases h : matchAtom a c
      · rw [if_pos h, h2]
        have h3 : runMatch [RPiece.star a :: ps] cs = piecesMatch (.star a :: ps) cs := rfl
        rw [h3]
        constructor
        · intro hor
          rcases Bool.or_eq_true_iff.mp hor with hl | hr
          · obtain ⟨s, t, rfl, hall, hmt⟩ := ih.mp hl
            refine ⟨c :: s, t, rfl, ?_, hmt⟩
            intro d hd
            rcases List.mem_cons.mp hd with rfl | hd2
            · exact h
            · exact hall d hd2
          · exact ⟨[], c :: cs, rfl, by simp, hr⟩
        · rintro ⟨s, t, hst, hall, hmt⟩
          cases s with
          | nil =>
              apply Bool.or_eq_true_iff.mpr
              right
              simp only [List.nil_append] at hst
              subst hst
              exact hmt
          | cons d s2 =>
              injection hst with hh ht
              subst hh
              apply Bool.or_eq_true_iff.mpr
              left
              exact ih.mpr ⟨s2, t, ht, fun e he => hall e (List.mem_cons_of_mem _ he), hmt⟩
      · rw [if_neg h, h2]
        rw [runMatch_nil_states]
        simp only [Bool.false_or]
        constructor
        · intro hm
          exact ⟨[], c :: cs, rfl, by simp, hm⟩
        · rintro ⟨s, t, hst, hall, hmt⟩
          cases s with
          | nil =>
              simp only [List.nil_append] at hst
              subst hst
              exact hmt
          | cons d s2 =>
              injection hst with hh ht
              subst hh
              exact absurd (hall c (by simp)) (by simpa using h)

theorem piecesMatch_more_iff (a : RAtom) (ps : List RPiece) (cs : List Char) :
    piecesMatch (.more a :: ps) cs = true ↔
      ∃ s t, cs = s ++ t ∧ s ≠ [] ∧ (∀ d ∈ s, matchAtom a d = true) ∧
        piecesMatch ps t = true := by
  cases cs with
  | nil =>
      constructor
      · intro h; simp [piecesMatch, runMatch, nullable] at h
      · rintro ⟨s, t, hst, hne, -, -⟩
        obtain ⟨rfl, rfl⟩ := List.append_eq_nil.mp hst.symm
        exact absurd rfl hne
  | cons c cs =>
      rw [piecesMatch, runMatch_cons]
      simp only [stepPiece]
      by_cases h : matchAtom a c
      · rw [if_pos h]
        have h3 : runMatch [RPiece.star a :: ps] cs = piecesMatch (.star a :: ps) cs := rfl
        rw [h3, piecesMatch_star_iff]
        constructor
        · rintro ⟨s, t, rfl, hall, hmt⟩
          refine ⟨c :: s, t, rfl, by simp, ?_, hmt⟩
          intro d hd
          rcases List.mem_cons.mp hd with rfl | hd2
          · exact h
          · exact hall d hd2
        · rintro ⟨s, t, hst, hne, hall, hmt⟩
          cases s with
          | nil => exact absurd rfl hne
          | cons d s2 =>
              injection hst with hh ht
              subst hh
              exact ⟨s2, t, ht, fun e he => hall e (List.mem_cons_of_mem _ he), hmt⟩
      · rw [if_neg h]
        rw [runMatch_nil_states]
        constructor
        · intro hf; cases hf
        · rintro ⟨s, t, hst, hne, hall, hmt⟩
          cases s with
          | nil => exact absurd rfl hne
          | cons d s2 =>
              injection hst with hh ht
              subst hh
              exact absurd (hall c (by simp)) (by simpa using h)

theorem piecesMatch_lits_append_iff (l : List Char) (ps : List RPiece) (cs : List Char) :
    piecesMatch (litPieces l ++ ps) cs = true ↔
      ∃ t, cs = l ++ t ∧ piecesMatch ps t = true := by
  induction l generalizing cs with
  | nil => simp [litPieces]
  | cons c l ih =>
      simp only [litPieces, List.map_cons, List.cons_append]
      rw [piecesMatch_one_iff]
      constructor
      · rintro ⟨d, cs2, rfl, hd, hm⟩
        have hcd : c = d := by simpa [matchAtom] using hd
        subst hcd
        obtain ⟨t, rfl, hmt⟩ := (ih cs2).mp hm
        exact ⟨t, rfl, hmt⟩
      · rintro ⟨t, rfl, hmt⟩
        exact ⟨c, l ++ t, rfl, by simp [matchAtom], (ih (l ++ t)).mpr ⟨t, rfl, hmt⟩⟩

theorem piecesMatch_lits_iff (l cs : List Char) :
    piecesMatch (litPieces l) cs = true ↔ cs = l := by
  have h := piecesMatch_lits_append_iff l [] cs
  simp only [List.append_nil] at h
  rw [h]
  constructor
  · rintro ⟨t, rfl, hm⟩
    have := (piecesMatch_nil_iff t).mp hm
    simp [this]
  · rintro rfl
    exact ⟨[], by simp, (piecesMatch_nil_iff []).mpr rfl⟩

theorem piecesMatch_star_any (cs : List Char) :
    piecesMatch [.star .anyChar] cs = true := by
  rw [piecesMatch_star_iff]
  exact ⟨cs, [], by simp, by simp [matchAtom], (piecesMatch_nil_iff []).mpr rfl⟩

/-! ## Lemmas about the filter-to-pieces translation -/

theorem plain_ne (c : Char) (hp : isPlainChar c = true) :
    c ≠ '^' ∧ c ≠ '$' ∧ c ≠ '.' ∧ c ≠ '*' ∧ c ≠ '+' ∧ c ≠ '[' ∧ c ≠ ']' := by
  refine ⟨?_, ?_, ?_, ?_, ?_, ?_, ?_⟩ <;>
    exact fun h => absurd (h ▸ hp) (by decide)

theorem replaceChar_append (c : Char) (r s1 s2 : List Char) :
    replaceChar c r (s1 ++ s2) = replaceChar c r s1 ++ replaceChar c r s2 := by
  simp [replaceChar]

theorem replaceChar_cons (c : Char) (r : List Char) (x : Char) (s : List Char) :
    replaceChar c r (x :: s) = (if x = c then r else [x]) ++ replaceChar c r s := by
  simp [replaceChar]

theorem bodyChars_cons (c : Char) (f : List Char) :
    bodyChars (c :: f) = bodyChunk c ++ bodyChars f := by
  unfold bodyChars
  rw [replaceChar_cons, replaceChar_append]
  congr 1
  by_cases h1 : c = '+'
  · subst h1; rfl
  · by_cases h2 : c = '#'
    · subst h2; rfl
    · rw [if_neg h1]
      simp [replaceChar, bodyChunk, h1, h2]

theorem parseB_chunk (c : Char) (hc : goodFilterChar c = true) (acc : List RPiece)
    (rest : List Char) :
    parseB acc (bodyChunk c ++ rest) = parseB (pieceOfChar c :: acc) rest := by
  by_cases h1 : c = '+'
  · subst h1; rfl
  · by_cases h2 : c = '#'
    · subst h2; rfl
    · have hp : isPlainChar c = true := by
        rcases Bool.or_eq_true_iff.mp hc with h | h
        · exact h
        · exact absurd (by simpa using h) h1
      obtain ⟨-, -, hdot, hstar, hplus, hbrak, -⟩ := plain_ne c hp
      have hchunk : bodyChunk c = [c] := by simp [bodyChunk, h1, h2]
      have hpiece : pieceOfChar c = .one (.lit c) := by simp [pieceOfChar, h1, h2]
      rw [hchunk, hpiece]
      show parseB acc (c :: rest) = parseB (.one (.lit c) :: acc) rest
      rw [parseB.eq_def]
      simp [hbrak, hdot, hstar, hplus, hp]

theorem parseB_bodyChars (f : List Char) (hf : ∀ c ∈ f, goodFilterChar c = true)
    (acc : List RPiece) :
    parseB acc (bodyChars f) = some (acc.reverse ++ f.map pieceOfChar) := by
  induction f generalizing acc with
  | nil =>
      show parseB acc [] = _
      simp [parseB]
  | cons c f ih =>
      rw [bodyChars_cons, parseB_chunk c (hf c (by simp)) acc (bodyChars f)]
      rw [ih (fun d hd => hf d (by simp [hd])) (pieceOfChar c :: acc)]
      simp

theorem filterPieces_good (f : List Char) (hf : ∀ c ∈ f, goodFilterChar c = true) :
    filterPieces f = some (f.map pieceOfChar) := by
  show parseAnchored ('^' :: bodyChars f ++ ['$']) = _
  have hanch : parseAnchored ('^' :: bodyChars f ++ ['$'])
      = if (bodyChars f ++ ['$']).getLast? = some '$' then
          parseBody (bodyChars f ++ ['$']).dropLast else none := rfl
  rw [hanch, List.getLast?_concat, if_pos rfl, List.dropLast_concat]
  show parseB [] (bodyChars f) = _
  rw [parseB_bodyChars f hf []]
  simp

theorem topicMatchesL_good (f t : List Char) (hf : ∀ c ∈ f, goodFilterChar c = true) :
    topicMatchesL f t = piecesMatch (f.map pieceOfChar) t := by
  unfold topicMatchesL
  rw [filterPieces_good f hf]

theorem plainTopicChar_good (c : Char) (h : plainTopicChar c = true) :
    goodFilterChar c = true := by
  have := (Bool.and_eq_true _ _).mp h
  simp [goodFilterChar, this.1]

theorem plainTopicChar_piece (c : Char) (h : plainTopicChar c = true) :
    pieceOfChar c = .one (.lit c) := by
  obtain ⟨hp, hns⟩ := (Bool.and_eq_true _ _).mp h
  obtain ⟨-, -, -, -, hplus, -, -⟩ := plain_ne c hp
  simp only [decide_eq_true_eq] at hns
  simp [pieceOfChar, hplus, hns]

theorem map_pieceOfChar_plain (l : List Char) (h : ∀ c ∈ l, plainTopicChar c = true) :
    l.map pieceOfChar = litPieces l := by
  induction l with
  | nil => rfl
  | cons c l ih =>
      simp only [List.map_cons, litPieces]
      rw [plainTopicChar_piece c (h c (by simp))]
      have := ih (fun d hd => h d (by simp [hd]))
      simpa [litPieces] using this

/-- For a filter made of plain characters only, the compiled pattern selects
exactly the equal topic. -/
theorem topicMatchesL_plain_iff (f t : List Char) (hf : ∀ c ∈ f, plainTopicChar c = true) :
    topicMatchesL f t = true ↔ t = f := by
  rw [topicMatchesL_good f t (fun c hc => plainTopicChar_good c (hf c hc)),
      map_pieceOfChar_plain f hf, piecesMatch_lits_iff]

/-! ## Lemmas about keyed upserts -/

section UpsertLemmas

variable {α κ : Type} [DecidableEq κ] (key : α → κ) (k : κ) (u : α → α) (n : α)

theorem upsertByKey_not_found (l : List α) (h : ∀ r ∈ l, key r ≠ k) :
    upsertByKey key k u n l = l ++ [n] := by
  unfold upsertByKey
  rw [if_neg]
  simp only [List.any_eq_true, decide_eq_true_eq, not_exists]
  intro r
  rw [not_and]
  exact h r

theorem upsertByKey_found (l : List α) (r0 : α) (hr0 : r0 ∈ l) (hk : key r0 = k) :
    upsertByKey key k u n l = l.map (fun r => if key r = k then u r else r) := by
  unfold upsertByKey
  rw [if_pos]
  simp only [List.any_eq_true, decide_eq_true_eq]
  exact ⟨r0, hr0, hk⟩

theorem filter_single_of_pairwise (l : List α)
    (hl : l.Pairwise (fun a b => key a ≠ key b)) (r0 : α) (hr0 : r0 ∈ l)
    (hk : key r0 = k) :
    l.filter (fun r => key r = k) = [r0] := by
  induction l with
  | nil => cases hr0
  | cons a l ih =>
      obtain ⟨hhead, htail⟩ := List.pairwise_cons.mp hl
      rcases List.mem_cons.mp hr0 with rfl | hmem
      · have hrest : l.filter (fun r => key r = k) = [] := by
          rw [List.filter_eq_nil_iff]
          intro x hx
          simp only [decide_eq_true_eq]
          exact fun he => hhead x hx (hk ▸ he ▸ rfl)
        simp [List.filter_cons, hk, hrest]
      · have hne : key a ≠ k := fun he => hhead r0 hmem (he.trans hk.symm)
        simp [List.filter_cons, hne, ih htail hmem]

theorem find?_of_filter_single (p : α → Bool) (l : List α) (x : α)
    (h : l.filter p = [x]) : l.find? p = some x := by
  induction l with
  | nil => simp at h
  | cons a l ih =>
      by_cases ha : p a
      · rw [List.filter_cons_of_pos ha] at h
        injection h with h1 h2
        rw [List.find?_cons_of_pos _ ha, h1]
      · rw [List.filter_cons_of_neg ha] at h
        rw [List.find?_cons_of_neg _ ha]
        exact ih h

theorem upsertByKey_filter (l : List α) (hu : ∀ r, key (u r) = key r) (hn : key n = k)
    (hl : l.Pairwise (fun a b => key a ≠ key b)) :
    (upsertByKey key k u n l).filter (fun r => key r = k)
      = match l.find? (fun r => key r = k) with
        | some r0 => [u r0]
        | none => [n] := by
  rcases hfind : l.find? (fun r => key r = k) with - | r0
  · have hno : ∀ r ∈ l, key r ≠ k := by
      intro r hr
      have := List.find?_eq_none.mp hfind r hr
      simpa using this
    rw [upsertByKey_not_found key k u n l hno, List.filter_append]
    rw [List.filter_eq_nil_iff.mpr (by intro x hx; simpa using hno x hx)]
    simp [hn]
  · have hr0mem : r0 ∈ l := List.mem_of_find?_eq_some hfind
    have hr0key : key r0 = k := by
      have := List.find?_some hfind
      simpa using this
    rw [upsertByKey_found key k u n l r0 hr0mem hr0key]
    rw [List.filter_map]
    have hcong : l.filter ((fun r => decide (key r = k)) ∘
        fun r => if key r = k then u r else r) = l.filter (fun r => key r = k) := by
      apply List.filter_congr
      intro x hx
      by_cases hxk : key x = k
      · simp [hxk, hu]
      · simp [hxk]
    rw [hcong, filter_single_of_pairwise key k l hl r0 hr0mem hr0key]
    simp [hr0key]

theorem upsertByKey_pairwise (l : List α) (hu : ∀ r, key (u r) = key r)
    (hn : key n = k) (hl : l.Pairwise (fun a b => key a ≠ key b)) :
    (upsertByKey key k u n l).Pairwise (fun a b => key a ≠ key b) := by
  by_cases hany : ∃ r0 ∈ l, key r0 = k
  · obtain ⟨r0, hr0, hk0⟩ := hany
    rw [upsertByKey_found key k u n l r0 hr0 hk0]
    rw [List.pairwise_map]
    refine hl.imp_of_mem ?_
    intro a b ha hb hab
    have h1 : key (if key a = k then u a else a) = key a := by
      by_cases hak : key a = k <;> simp [hak, hu]
    have h2 : key (if key b = k then u b else b) = key b := by
      by_cases hbk : key b = k <;> simp [hbk, hu]
    rw [h1, h2]
    exact hab
  · push_neg at hany
    rw [upsertByKey_not_found key k u n l hany]
    rw [List.pairwise_append]
    refine ⟨hl, by simp, ?_⟩
    intro a ha b hb
    rw [List.mem_singleton.mp hb]
    rw [hn]
    exact hany a ha

end UpsertLemmas

/-! ## Lemmas about the outgoing-queue ordering -/

theorem sortById_of_sorted (l : List OutRow)
    (hl : l.Pairwise (fun a b => a.id < b.id)) : sortById l = l := by
  induction l with
  | nil => rfl
  | cons a l ih =>
      obtain ⟨hhead, htail⟩ := List.pairwise_cons.mp hl
      rw [sortById, ih htail]
      cases l with
      | nil => rfl
      | cons b l2 =>
          have hab : a.id < b.id := hhead b (by simp)
          simp [insertById, Nat.le_of_lt hab]

/-! ## Claim C9 -/

/-- C9: for every filter built from plain literal characters and `+`
wildcards, the compiled matcher accepts a topic exactly when each `+` is
replaced by one nonempty separator-free path segment — so a `+` matches
exactly one segment and never crosses a `/`; in particular `a/+/c` matches
`a/b/c` but not `a/b/x/c`. -/
theorem plus_filter_matches_iff (f T : List Char)
    (hf : ∀ c ∈ f, plainTopicChar c = true ∨ c = '+') :
    topicMatchesL f T = true ↔ PlusInst f T := by
  rw [topicMatchesL_good f T (fun c hc => (hf c hc).elim (plainTopicChar_good c)
    (fun h => by simp [goodFilterChar, h]))]
  induction f generalizing T with
  | nil =>
      simp only [List.map_nil]
      rw [piecesMatch_nil_iff]
      constructor
      · rintro rfl; exact PlusInst.nil
      · rintro h; cases h; rfl
  | cons c f ih =>
      have hftail : ∀ d ∈ f, plainTopicChar d = true ∨ d = '+' :=
        fun d hd => hf d (by simp [hd])
      rcases hf c (by simp) with hplain | rfl
      · have hpc : pieceOfChar c = .one (.lit c) := plainTopicChar_piece c hplain
        simp only [List.map_cons, hpc]
        rw [piecesMatch_one_iff]
        constructor
        · rintro ⟨d, T2, rfl, hd, hm⟩
          have hcd : c = d := by simpa [matchAtom] using hd
          subst hcd
          exact PlusInst.lit hplain ((ih T2 hftail).mp hm)
        · intro h
          cases h with
          | lit hc hrest =>
              exact ⟨c, _, rfl, by simp [matchAtom], (ih _ hftail).mpr hrest⟩
          | seg hne hns hrest => exact absurd hplain (by decide)
      · simp only [List.map_cons]
        have hpc : pieceOfChar '+' = .more .negSlash := rfl
        rw [hpc, piecesMatch_more_iff]
        constructor
        · rintro ⟨s, t, rfl, hne, hall, hm⟩
          exact PlusInst.seg hne (fun d hd => by simpa [matchAtom] using hall d hd)
            ((ih t hftail).mp hm)
        · intro h
          cases h with
          | lit hc hrest => exact absurd hc (by decide)
          | seg hne hns hrest =>
              exact ⟨_, _, rfl, hne,
                fun d hd => by simpa [matchAtom] using hns d hd,
                (ih _ hftail).mpr hrest⟩

/-- C9 witness: the filter `a/+/c` accepts `a/b/c` (via the characterization)
and rejects `a/b/x/c`. -/
theorem plus_filter_matches_iff_witness :
    topicMatchesL ['a', '/', '+', '/', 'c'] ['a', '/', 'b', '/', 'c'] = true
      ∧ topicMatchesL ['a', '/', '+', '/', 'c'] ['a', '/', 'b', '/', 'x', '/', 'c'] = false :=
  ⟨(plus_filter_matches_iff ['a', '/', '+', '/', 'c'] ['a', '/', 'b', '/', 'c']
      (by decide)).mpr
    (PlusInst.lit (by decide) (PlusInst.lit (by decide)
      (@PlusInst.seg ['b'] ['/', 'c'] ['/', 'c'] (by decide) (by decide)
        (PlusInst.lit (by decide) (PlusInst.lit (by decide) PlusInst.nil))))),
   by decide⟩

/-! ## Claim C2 -/

/-- C2 counterexample: the matcher compiled from the filter `a/#` rejects the
bare topic `a`, although the claim states that `a/#` matches `a`. -/
theorem hash_filter_rejects_parent : topicMatches "a/#" "a" = false := by decide

/-- C2 amended: for a filter `A ++ "/#"` with plain prefix `A`, the compiled
matcher accepts exactly the topics consisting of the prefix, the separator,
and any (possibly empty) remainder — `a/#` matches `a/b` and `a/b/c` but not
the bare prefix `a`. -/
theorem hash_filter_matches_iff (A T : List Char)
    (hA : ∀ c ∈ A, plainTopicChar c = true) :
    topicMatchesL (A ++ ['/', '#']) T = true ↔ ∃ s, T = A ++ '/' :: s := by
  have hgood : ∀ c ∈ A ++ ['/', '#'], goodFilterChar c = true := by
    intro c hc
    rcases List.mem_append.mp hc with h | h
    · exact plainTopicChar_good c (hA c h)
    · rcases List.mem_cons.mp h with rfl | h2
      · decide
      · rcases List.mem_singleton.mp h2 with rfl
        decide
  rw [topicMatchesL_good _ _ hgood, List.map_append, map_pieceOfChar_plain A hA]
  have hmap2 : (['/', '#'] : List Char).map pieceOfChar
      = [.one (.lit '/'), .star .anyChar] := rfl
  rw [hmap2]
  constructor
  · intro h
    obtain ⟨t, rfl, hm⟩ := (piecesMatch_lits_append_iff A _ T).mp h
    rw [piecesMatch_one_iff] at hm
    obtain ⟨d, t2, rfl, hd, -⟩ := hm
    have hcd : '/' = d := by simpa [matchAtom] using hd
    subst hcd
    exact ⟨t2, rfl⟩
  · rintro ⟨s, rfl⟩
    apply (piecesMatch_lits_append_iff A _ _).mpr
    refine ⟨'/' :: s, rfl, ?_⟩
    rw [piecesMatch_one_iff]
    exact ⟨'/', s, rfl, by simp [matchAtom], piecesMatch_star_any s⟩

/-- C2 witness: `a/#` accepts `a/b` and `a/b/c` via the characterization. -/
theorem hash_filter_matches_iff_witness :
    topicMatchesL ['a', '/', '#'] ['a', '/', 'b'] = true
      ∧ topicMatchesL ['a', '/', '#'] ['a', '/', 'b', '/', 'c'] = true :=
  ⟨(hash_filter_matches_iff ['a'] ['a', '/', 'b'] (by decide)).mpr ⟨['b'], rfl⟩,
   (hash_filter_matches_iff ['a'] ['a', '/', 'b', '/', 'c'] (by decide)).mpr
     ⟨['b', '/', 'c'], rfl⟩⟩

/-! ## Claim C1 -/

/-- C1: literal characters of a filter are handed to REGEXP unescaped, so with
one stored subscription on topic `axb`, `subscriptionsByTopic "a.b"` returns
that subscription even though its topic differs from `a.b` — the claimed
"exactly the subscriptions whose topic equals T" fails. -/
theorem subscriptionsByTopic_unescaped :
    subscriptionsByTopic subDemoState "a.b" = .ok [⟨"c1", "axb", 0⟩]
      ∧ (⟨"c1", "axb", 0⟩ : SubRow).topic ≠ "a.b" :=
  ⟨rfl, by decide⟩

/-! ## Claim C7 -/

/-- C7: when a subscription TTL (here 600s) is configured, the provisioner
installs the cleanup event, but the event's DELETE targets the table
`subscriptions`, which is not among the relations the provisioner creates —
the provisioned subscription relation is `aedes_subscriptions`, so the task
never deletes the rows the claim says it deletes. -/
theorem cleanup_event_wrong_table :
    (subscriptionCleanupEvent (some 600)).map (fun e => e.targetTable)
        = some "subscriptions"
      ∧ "aedes_subscriptions" ∈ tableNames
      ∧ "subscriptions" ∉ tableNames :=
  ⟨rfl, by decide, by decide⟩

/-! ## Claim C4 -/

theorem topicMatches_plain_iff (T x : String)
    (hT : ∀ c ∈ T.toList, plainTopicChar c = true) :
    topicMatches T x = true ↔ x = T := by
  unfold topicMatches
  rw [topicMatchesL_plain_iff _ _ hT]
  constructor
  · intro h
    cases x
    cases T
    exact congrArg String.mk (by simpa [String.toList] using h)
  · rintro rfl; rfl

theorem topicMatches_plain_eq (T x : String)
    (hT : ∀ c ∈ T.toList, plainTopicChar c = true) :
    topicMatches T x = decide (x = T) := by
  by_cases h : x = T
  · subst h
    have hm := (topicMatches_plain_iff x x hT).mpr rfl
    simp [hm]
  · rw [decide_eq_false h]
    exact Bool.eq_false_iff.mpr (fun hm => h ((topicMatches_plain_iff T x hT).mp hm))

theorem storeRetained_ok (st : State) (p : RPacket) (st' : State)
    (h : storeRetained st p = .ok st') :
    st.ready = true ∧
    st' = { st with retained := (upsertByKey (fun r => r.topic) p.topic
      (fun r => { r with payload := p.payload, qos := p.qos })
      ⟨p.topic, p.payload, p.qos⟩ st.retained) } := by
  by_cases hr : st.ready
  · refine ⟨hr, ?_⟩
    unfold storeRetained at h
    rw [if_pos hr] at h
    injection h with h1
    exact h1.symm
  · unfold storeRetained at h
    rw [if_neg hr] at h
    cases h

theorem storeRetained_filter (st : State) (T P : String) (Q : Nat) (st' : State)
    (hnd : st.retained.Pairwise (fun a b => a.topic ≠ b.topic))
    (h : storeRetained st ⟨T, P, Q⟩ = .ok st') :
    st'.ready = st.ready
      ∧ st'.retained.filter (fun r => r.topic = T) = [⟨T, P, Q⟩]
      ∧ st'.retained.Pairwise (fun a b => a.topic ≠ b.topic) := by
  obtain ⟨hr, rfl⟩ := storeRetained_ok st ⟨T, P, Q⟩ st' h
  refine ⟨rfl, ?_, ?_⟩
  · have hfil := upsertByKey_filter (fun r : RetainedRow => r.topic) T
      (fun r => { r with payload := P, qos := Q }) ⟨T, P, Q⟩ st.retained
      (fun r => rfl) rfl hnd
    rcases hfind : st.retained.find? (fun r => r.topic = T) with - | r0
    · rw [hfind] at hfil
      exact hfil
    · rw [hfind] at hfil
      have hr0 : r0.topic = T := by simpa using List.find?_some hfind
      rw [hfil]
      obtain ⟨t0, p0, q0⟩ := r0
      simp only at hr0
      simp [hr0]
  · exact upsertByKey_pairwise (fun r : RetainedRow => r.topic) T
      (fun r => { r with payload := P, qos := Q }) ⟨T, P, Q⟩ st.retained
      (fun r => rfl) rfl hnd

/-- C4 counterexample: the claim quantifies over every topic `T`, but for the
topic `a*` (a legal stored-topic string whose characters are regex-special),
`storeRetained` followed by `retainedMatching(["a*"])` yields no result at
all, because the compiled pattern `^a*$` matches runs of `a`, not the stored
topic. -/
theorem retained_roundtrip_cex :
    (storeRetained emptyReadyState ⟨"a*", "p", 1⟩).bind
        (fun st => createRetainedStreamCombi st ["a*"]) = .ok []
      ∧ ((Except.ok [] : Except String (List RPacket))
          ≠ Except.ok [(⟨"a*", "p", 1⟩ : RPacket)]) :=
  ⟨rfl, by simp⟩

/-- C4 amended: for every topic `T` whose characters are plain (no MQTT
wildcard, no regex metacharacter), `storeRetained(T, P, Q)` followed by
`retainedMatching([T])` yields exactly the one result (T, P, Q); a second
`storeRetained(T, P2, Q2)` replaces the row, and exactly one retained row for
`T` remains. -/
theorem retained_roundtrip (st st1 st2 : State) (T P P2 : String) (Q Q2 : Nat)
    (hT : ∀ c ∈ T.toList, plainTopicChar c = true)
    (hnd : st.retained.Pairwise (fun a b => a.topic ≠ b.topic))
    (h1 : storeRetained st ⟨T, P, Q⟩ = .ok st1)
    (h2 : storeRetained st1 ⟨T, P2, Q2⟩ = .ok st2) :
    createRetainedStreamCombi st1 [T] = .ok [⟨T, P, Q⟩]
      ∧ createRetainedStreamCombi st2 [T] = .ok [⟨T, P2, Q2⟩]
      ∧ (st2.retained.filter (fun r => r.topic = T)).length = 1 := by
  obtain ⟨hr, -⟩ := storeRetained_ok st ⟨T, P, Q⟩ st1 h1
  obtain ⟨hready1, hfil1, hnd1⟩ := storeRetained_filter st T P Q st1 hnd h1
  obtain ⟨hready2, hfil2, -⟩ := storeRetained_filter st1 T P2 Q2 st2 hnd1 h2
  have hr1 : st1.ready = true := hready1.trans hr
  have hr2 : st2.ready = true := hready2.trans hr1
  have hq : ∀ (s : State) (P' : String) (Q' : Nat), s.ready = true →
      s.retained.filter (fun r => r.topic = T) = [⟨T, P', Q'⟩] →
      createRetainedStreamCombi s [T] = .ok [⟨T, P', Q'⟩] := by
    intro s P' Q' hsr hsf
    unfold createRetainedStreamCombi
    rw [if_pos hsr]
    have hcong : s.retained.filter (fun r => [T].any (fun p => topicMatches p r.topic))
        = s.retained.filter (fun r => r.topic = T) := by
      apply List.filter_congr
      intro x hx
      simp only [List.any_cons, List.any_nil, Bool.or_false]
      exact topicMatches_plain_eq T x.topic hT
    rw [hcong, hsf]
    rfl
  exact ⟨hq st1 P Q hr1 hfil1, hq st2 P2 Q2 hr2 hfil2, by rw [hfil2]; rfl⟩

/-- C4 witness: the amended round trip at topic `t/a`, instantiated on the
empty provisioned store. -/
theorem retained_roundtrip_witness :
    createRetainedStreamCombi
        { emptyReadyState with retained := [⟨"t/a", "p", 1⟩] } ["t/a"]
        = .ok [⟨"t/a", "p", 1⟩]
      ∧ createRetainedStreamCombi
        { emptyReadyState with retained := [⟨"t/a", "q", 2⟩] } ["t/a"]
        = .ok [⟨"t/a", "q", 2⟩]
      ∧ (({ emptyReadyState with retained := [⟨"t/a", "q", 2⟩] } : State).retained.filter
          (fun r => r.topic = "t/a")).length = 1 :=
  retained_roundtrip emptyReadyState
    { emptyReadyState with retained := [⟨"t/a", "p", 1⟩] }
    { emptyReadyState with retained := [⟨"t/a", "q", 2⟩] }
    "t/a" "p" "q" 1 2 (by decide) List.Pairwise.nil rfl rfl

/-! ## Claim C6 -/

theorem incomingStorePacket_ok (st : State) (cl : Client) (p : InPacket) (st' : State)
    (h : incomingStorePacket st cl p = .ok st') :
    st.ready = true ∧
    st' = { st with incoming := (upsertByKey (fun r => (r.clientId, r.messageId))
      (cl.id, p.messageId)
      (fun r => { r with topic := p.topic, payload := p.payload, qos := p.qos })
      ⟨cl.id, p.messageId, p.topic, p.payload, p.qos⟩ st.incoming) } := by
  by_cases hr : st.ready
  · refine ⟨hr, ?_⟩
    unfold incomingStorePacket at h
    rw [if_pos hr] at h
    injection h with h1
    exact h1.symm
  · unfold incomingStorePacket at h
    rw [if_neg hr] at h
    cases h

theorem incoming_store_filter (st : State) (cl : Client) (p : InPacket) (st' : State)
    (hnd : st.incoming.Pairwise
      (fun a b => (a.clientId, a.messageId) ≠ (b.clientId, b.messageId)))
    (h : incomingStorePacket st cl p = .ok st') :
    st'.ready = st.ready
      ∧ st'.incoming.filter
          (fun r => (r.clientId, r.messageId) = (cl.id, p.messageId))
        = [⟨cl.id, p.messageId, p.topic, p.payload, p.qos⟩]
      ∧ st'.incoming.Pairwise
          (fun a b => (a.clientId, a.messageId) ≠ (b.clientId, b.messageId)) := by
  obtain ⟨hr, rfl⟩ := incomingStorePacket_ok st cl p st' h
  refine ⟨rfl, ?_, ?_⟩
  · have hfil := upsertByKey_filter (fun r : InRow => (r.clientId, r.messageId))
      (cl.id, p.messageId)
      (fun r => { r with topic := p.topic, payload := p.payload, qos := p.qos })
      ⟨cl.id, p.messageId, p.topic, p.payload, p.qos⟩ st.incoming
      (fun r => rfl) rfl hnd
    rcases hfind : st.incoming.find?
        (fun r => (r.clientId, r.messageId) = (cl.id, p.messageId)) with - | r0
    · rw [hfind] at hfil
      exact hfil
    · rw [hfind] at hfil
      have hr0 : (r0.clientId, r0.messageId) = (cl.id, p.messageId) := by
        simpa using List.find?_some hfind
      rw [hfil]
      obtain ⟨c0, m0, t0, p0, q0⟩ := r0
      simp only [Prod.mk.injEq] at hr0
      simp [hr0.1, hr0.2]
  · exact upsertByKey_pairwise (fun r : InRow => (r.clientId, r.messageId))
      (cl.id, p.messageId)
      (fun r => { r with topic := p.topic, payload := p.payload, qos := p.qos })
      ⟨cl.id, p.messageId, p.topic, p.payload, p.qos⟩ st.incoming
      (fun r => rfl) rfl hnd

/-- C6: storing the same incoming packet twice for the same
(clientId, messageId) leaves exactly one stored row, and `incomingGetPacket`
retrieves that packet. -/
theorem incoming_idempotent (st st1 st2 : State) (cl : Client) (p : InPacket)
    (hnd : st.incoming.Pairwise
      (fun a b => (a.clientId, a.messageId) ≠ (b.clientId, b.messageId)))
    (h1 : incomingStorePacket st cl p = .ok st1)
    (h2 : incomingStorePacket st1 cl p = .ok st2) :
    (st2.incoming.filter
        (fun r => (r.clientId, r.messageId) = (cl.id, p.messageId))).length = 1
      ∧ incomingGetPacket st2 cl p.messageId = .ok p := by
  obtain ⟨hr, -⟩ := incomingStorePacket_ok st cl p st1 h1
  obtain ⟨hready1, hfil1, hnd1⟩ := incoming_store_filter st cl p st1 hnd h1
  obtain ⟨hready2, hfil2, -⟩ := incoming_store_filter st1 cl p st2 hnd1 h2
  have hr2 : st2.ready = true := hready2.trans (hready1.trans hr)
  refine ⟨by rw [hfil2]; rfl, ?_⟩
  unfold incomingGetPacket
  rw [if_pos hr2]
  have hfind : st2.incoming.find?
      (fun r => r.clientId = cl.id ∧ r.messageId = p.messageId)
      = some ⟨cl.id, p.messageId, p.topic, p.payload, p.qos⟩ := by
    apply find?_of_filter_single
    have hcong : st2.incoming.filter
        (fun r => r.clientId = cl.id ∧ r.messageId = p.messageId)
        = st2.incoming.filter
          (fun r => (r.clientId, r.messageId) = (cl.id, p.messageId)) := by
      apply List.filter_congr
      intro x hx
      simp [Prod.mk.injEq]
    rw [hcong, hfil2]
  rw [hfind]

/-- C6 witness: the idempotent store at a concrete packet on the empty
provisioned store. -/
theorem incoming_idempotent_witness :
    (({ emptyReadyState with incoming := [⟨"c1", 5, "t", "x", 2⟩] } : State).incoming.filter
        (fun r => (r.clientId, r.messageId) = ("c1", 5))).length = 1
      ∧ incomingGetPacket { emptyReadyState with incoming := [⟨"c1", 5, "t", "x", 2⟩] }
          ⟨"c1", none⟩ 5 = .ok ⟨5, "t", "x", 2⟩ :=
  incoming_idempotent emptyReadyState
    { emptyReadyState with incoming := [⟨"c1", 5, "t", "x", 2⟩] }
    { emptyReadyState with incoming := [⟨"c1", 5, "t", "x", 2⟩] }
    ⟨"c1", none⟩ ⟨5, "t", "x", 2⟩ List.Pairwise.nil rfl rfl

/-! ## Claim C8 -/

/-- C8: when no row matches, `incomingGetPacket` fails with the dedicated
"Packet not found" error while `getWill` succeeds with an explicit `none`
rather than an error. -/
theorem lookup_not_found (st : State) (cl : Client) (mid : Nat)
    (hready : st.ready = true)
    (hinc : st.incoming.find?
      (fun r => r.clientId = cl.id ∧ r.messageId = mid) = none)
    (hwill : st.wills.find? (fun r => r.clientId = cl.id) = none) :
    incomingGetPacket st cl mid = .error "Packet not found"
      ∧ getWill st cl = .ok none := by
  constructor
  · unfold incomingGetPacket
    rw [if_pos hready, hinc]
  · unfold getWill
    rw [if_pos hready, hwill]

/-- C8 witness: both lookups on the empty provisioned store. -/
theorem lookup_not_found_witness :
    incomingGetPacket emptyReadyState ⟨"c9", none⟩ 7 = .error "Packet not found"
      ∧ getWill emptyReadyState ⟨"c9", none⟩ = .ok none :=
  lookup_not_found emptyReadyState ⟨"c9", none⟩ 7 rfl rfl rfl

/-! ## Claim C5 -/

theorem outgoingEnqueueCombi_ok_single (st : State) (c : String) (p : OutPacket)
    (st' : State) (h : outgoingEnqueueCombi st [c] p = .ok st') :
    st.ready = true ∧
    st' = { st with
      outgoing := st.outgoing ++ [⟨st.nextOutId, c, jsOrNull p.messageId, p.topic,
        p.payload, p.qos, p.retain, p.dup⟩],
      nextOutId := st.nextOutId + 1 } := by
  by_cases hr : st.ready
  · refine ⟨hr, ?_⟩
    unfold outgoingEnqueueCombi at h
    rw [if_pos hr, if_neg (by simp : ¬([c].length = 0))] at h
    injection h with h1
    exact h1.symm
  · unfold outgoingEnqueueCombi at h
    rw [if_neg hr] at h
    cases h

/-- C5: enqueuing `P1` and then `P2` for the same client appends them in that
order, and `outgoingStream` (which orders by the auto-increment id) returns
the previous queue followed by `P1` and then `P2` — retrieval order equals
insertion order. -/
theorem outgoing_stream_order (st st1 st2 : State) (c : String) (p1 p2 : OutPacket)
    (prev : List OutPacket)
    (hsorted : st.outgoing.Pairwise (fun a b => a.id < b.id))
    (hbound : ∀ r ∈ st.outgoing, r.id < st.nextOutId)
    (h0 : outgoingStream st ⟨c, none⟩ = .ok prev)
    (h1 : outgoingEnqueueCombi st [c] p1 = .ok st1)
    (h2 : outgoingEnqueueCombi st1 [c] p2 = .ok st2) :
    outgoingStream st2 ⟨c, none⟩ = .ok (prev ++
      [⟨jsOrNull p1.messageId, p1.topic, p1.payload, p1.qos, p1.retain, p1.dup⟩,
       ⟨jsOrNull p2.messageId, p2.topic, p2.payload, p2.qos, p2.retain, p2.dup⟩]) := by
  obtain ⟨hr, rfl⟩ := outgoingEnqueueCombi_ok_single st c p1 st1 h1
  obtain ⟨-, rfl⟩ := outgoingEnqueueCombi_ok_single _ c p2 _ h2
  unfold outgoingStream at h0 ⊢
  dsimp only at h0 ⊢
  rw [if_pos hr] at h0
  rw [if_pos hr]
  have hF : (st.outgoing.filter (fun r => r.clientId = c)).Pairwise
      (fun a b => a.id < b.id) := List.Pairwise.sublist (List.filter_sublist _) hsorted
  have hprev : prev = (st.outgoing.filter (fun r => r.clientId = c)).map
      (fun r => ⟨r.messageId, r.topic, r.payload, r.qos, r.retain, r.dup⟩) := by
    injection h0 with h0a
    rw [← h0a, sortById_of_sorted _ hF]
  have hfil : ((st.outgoing ++ [(⟨st.nextOutId, c, jsOrNull p1.messageId, p1.topic,
        p1.payload, p1.qos, p1.retain, p1.dup⟩ : OutRow)]) ++ [(⟨st.nextOutId + 1, c,
        jsOrNull p2.messageId, p2.topic, p2.payload, p2.qos, p2.retain,
        p2.dup⟩ : OutRow)]).filter (fun r => r.clientId = c)
      = st.outgoing.filter (fun r => r.clientId = c) ++
        [(⟨st.nextOutId, c, jsOrNull p1.messageId, p1.topic, p1.payload, p1.qos,
          p1.retain, p1.dup⟩ : OutRow),
         (⟨st.nextOutId + 1, c, jsOrNull p2.messageId, p2.topic, p2.payload, p2.qos,
          p2.retain, p2.dup⟩ : OutRow)] := by
    simp [List.filter_append]
  have hsorted2 : (st.outgoing.filter (fun r => r.clientId = c) ++
        [(⟨st.nextOutId, c, jsOrNull p1.messageId, p1.topic, p1.payload, p1.qos,
          p1.retain, p1.dup⟩ : OutRow),
         (⟨st.nextOutId + 1, c, jsOrNull p2.messageId, p2.topic, p2.payload, p2.qos,
          p2.retain, p2.dup⟩ : OutRow)]).Pairwise (fun a b => a.id < b.id) := by
    rw [List.pairwise_append]
    refine ⟨hF, ?_, ?_⟩
    · refine List.Pairwise.cons ?_ ?_
      · intro b hb
        rcases List.mem_singleton.mp hb with rfl
        exact Nat.lt_succ_self _
      · exact List.Pairwise.cons (fun b hb => by cases hb) List.Pairwise.nil
    · intro a ha b hb
      have haid : a.id < st.nextOutId :=
        hbound a (List.mem_of_mem_filter ha)
      rcases List.mem_cons.mp hb with rfl | hb2
      · exact haid
      · rcases List.mem_singleton.mp hb2 with rfl
        exact Nat.lt_succ_of_lt haid
  rw [hfil, sortById_of_sorted _ hsorted2, List.map_append, hprev]
  rfl

/-- C5 witness: two packets enqueued on the empty provisioned store come back
in insertion order. -/
theorem outgoing_stream_order_witness :
    outgoingStream
      { emptyReadyState with
        outgoing := [⟨1, "c1", some 3, "t", "x", 1, false, false⟩,
                     ⟨2, "c1", some 4, "t", "y", 1, false, false⟩],
        nextOutId := 3 } ⟨"c1", none⟩
      = .ok [⟨some 3, "t", "x", 1, false, false⟩, ⟨some 4, "t", "y", 1, false, false⟩] :=
  outgoing_stream_order emptyReadyState
    { emptyReadyState with
      outgoing := [⟨1, "c1", some 3, "t", "x", 1, false, false⟩], nextOutId := 2 }
    { emptyReadyState with
      outgoing := [⟨1, "c1", some 3, "t", "x", 1, false, false⟩,
                   ⟨2, "c1", some 4, "t", "y", 1, false, false⟩],
      nextOutId := 3 }
    "c1" ⟨some 3, "t", "x", 1, false, false⟩ ⟨some 4, "t", "y", 1, false, false⟩ []
    List.Pairwise.nil (by intro r hr; cases hr) rfl rfl rfl

/-! ## Claim C10 -/

theorem putWill_ok (st : State) (cl : Client) (p : WillPacket) (st' : State)
    (h : putWill st cl p = .ok st') :
    st.ready = true ∧
    st' = { st with wills := (upsertByKey (fun r => r.clientId) cl.id
      (fun r => { r with topic := p.topic, payload := p.payload, qos := p.qos,
                         retain := p.retain, brokerId := cl.broker })
      ⟨cl.id, p.topic, p.payload, p.qos, p.retain, cl.broker⟩ st.wills) } := by
  by_cases hr : st.ready
  · refine ⟨hr, ?_⟩
    unfold putWill at h
    rw [if_pos hr] at h
    injection h with h1
    exact h1.symm
  · unfold putWill at h
    rw [if_neg hr] at h
    cases h

/-- C10: a will stored for a client without a broker field is recorded with a
null broker id, and `streamWill` — whose `broker_id IN (...)` test never
accepts a null broker id — never yields that client's will, for any broker
set. -/
theorem will_null_broker (st st1 : State) (cl : Client) (p : WillPacket)
    (hnb : cl.broker = none)
    (hnd : st.wills.Pairwise (fun a b => a.clientId ≠ b.clientId))
    (h1 : putWill st cl p = .ok st1) :
    (∃ r, st1.wills.find? (fun r => r.clientId = cl.id) = some r ∧ r.brokerId = none)
      ∧ ∀ (brokers : List String) (l : List WillRow),
          streamWill st1 brokers = .ok l → ∀ w ∈ l, w.clientId ≠ cl.id := by
  obtain ⟨hr, rfl⟩ := putWill_ok st cl p st1 h1
  have hfil := upsertByKey_filter (fun r : WillRow => r.clientId) cl.id
    (fun r => { r with topic := p.topic, payload := p.payload, qos := p.qos,
                       retain := p.retain, brokerId := cl.broker })
    ⟨cl.id, p.topic, p.payload, p.qos, p.retain, cl.broker⟩ st.wills
    (fun r => rfl) rfl hnd
  have hfix : ∃ row, (upsertByKey (fun r : WillRow => r.clientId) cl.id
      (fun r => { r with topic := p.topic, payload := p.payload, qos := p.qos,
                         retain := p.retain, brokerId := cl.broker })
      ⟨cl.id, p.topic, p.payload, p.qos, p.retain, cl.broker⟩ st.wills).filter
        (fun r => r.clientId = cl.id) = [row]
      ∧ row.brokerId = none ∧ row.clientId = cl.id := by
    rcases hfind : st.wills.find? (fun r => r.clientId = cl.id) with - | r0
    · rw [hfind] at hfil
      exact ⟨_, hfil, hnb, rfl⟩
    · rw [hfind] at hfil
      have hr0 : r0.clientId = cl.id := by simpa using List.find?_some hfind
      exact ⟨_, hfil, hnb, hr0⟩
  obtain ⟨row, hfrow, hrb, hrc⟩ := hfix
  constructor
  · exact ⟨row, find?_of_filter_single _ _ row hfrow, hrb⟩
  · intro brokers l hs w hw
    intro hwc
    unfold streamWill at hs
    rw [if_pos hr] at hs
    by_cases hb : brokers.length = 0
    · rw [if_pos hb] at hs
      injection hs with hs'
      subst hs'
      cases hw
    · rw [if_neg hb] at hs
      injection hs with hs'
      subst hs'
      have hw2 := List.mem_filter.mp hw
      have hwrow : w ∈ (upsertByKey (fun r : WillRow => r.clientId) cl.id
          (fun r => { r with topic := p.topic, payload := p.payload, qos := p.qos,
                             retain := p.retain, brokerId := cl.broker })
          ⟨cl.id, p.topic, p.payload, p.qos, p.retain, cl.broker⟩ st.wills).filter
            (fun r => r.clientId = cl.id) :=
        List.mem_filter.mpr ⟨hw2.1, by simp [hwc]⟩
      rw [hfrow] at hwrow
      have hweq : w = row := List.mem_singleton.mp hwrow
      subst hweq
      have hwtest := hw2.2
      rw [hrb] at hwtest
      simp at hwtest

/-- C10 witness: a will stored for a broker-less client on the empty
provisioned store is recorded with a null broker id and is invisible to
`streamWill`. -/
theorem will_null_broker_witness :
    (∃ r, ({ emptyReadyState with
        wills := [⟨"c1", "t", "x", 0, false, none⟩] } : State).wills.find?
          (fun r => r.clientId = "c1") = some r ∧ r.brokerId = none)
      ∧ ∀ w ∈ ([] : List WillRow), w.clientId ≠ "c1" := by
  have h := will_null_broker emptyReadyState
    { emptyReadyState with wills := [⟨"c1", "t", "x", 0, false, none⟩] }
    ⟨"c1", none⟩ ⟨"t", "x", 0, false⟩ rfl List.Pairwise.nil rfl
  exact ⟨h.1, h.2 ["b1"] [] rfl⟩

/-! ## Claim C3 -/

/-- C3 counterexample: an operation invoked after `destroy` fails with the
very same not-ready error value produced before provisioning completes — the
code never produces a distinct Closed error. -/
theorem closed_error_indistinguishable :
    storeRetained (destroy emptyReadyState) ⟨"t", "p", 0⟩ = .error notReadyMsg
      ∧ storeRetained initState ⟨"t", "p", 0⟩ = .error notReadyMsg :=
  ⟨rfl, rfl⟩

/-- C3 amended: after `destroy`, every public operation fails fast with the
same `'MySQL persistence not ready'` error that is used before provisioning
(not a distinct Closed error), and performs no table access. -/
theorem closed_fails_not_ready (st : State)
    (hcr : st.closed = true → st.ready = false)
    (cl : Client) (rp : RPacket) (subs : List (String × Nat))
    (topics pats : List String) (op : OutPacket) (subsO : List String)
    (ip : InPacket) (mid : Nat) (wp : WillPacket) (brokers : List String)
    (topic pattern : String) :
    storeRetained (destroy st) rp = .error notReadyMsg
      ∧ createRetainedStreamCombi (destroy st) pats = .error notReadyMsg
      ∧ addSubscriptions (destroy st) cl subs = .error notReadyMsg
      ∧ removeSubscriptions (destroy st) cl topics = .error notReadyMsg
      ∧ subscriptionsByClient (destroy st) cl = .error notReadyMsg
      ∧ countOffline (destroy st) = .error notReadyMsg
      ∧ subscriptionsByTopic (destroy st) pattern = .error notReadyMsg
      ∧ cleanSubscriptions (destroy st) cl = .error notReadyMsg
      ∧ outgoingEnqueueCombi (destroy st) subsO op = .error notReadyMsg
      ∧ outgoingUpdate (destroy st) cl op = .error notReadyMsg
      ∧ outgoingClearMessageId (destroy st) cl op = .error notReadyMsg
      ∧ outgoingStream (destroy st) cl = .error notReadyMsg
      ∧ incomingStorePacket (destroy st) cl ip = .error notReadyMsg
      ∧ incomingGetPacket (destroy st) cl mid = .error notReadyMsg
      ∧ incomingDelPacket (destroy st) cl mid = .error notReadyMsg
      ∧ putWill (destroy st) cl wp = .error notReadyMsg
      ∧ getWill (destroy st) cl = .error notReadyMsg
      ∧ delWill (destroy st) cl = .error notReadyMsg
      ∧ streamWill (destroy st) brokers = .error notReadyMsg
      ∧ getClientList (destroy st) topic = .error notReadyMsg := by
  have hready : (destroy st).ready = false := by
    unfold destroy
    by_cases h : st.closed
    · rw [if_pos h]
      exact hcr h
    · rw [if_neg h]
  refine ⟨?_, ?_, ?_, ?_, ?_, ?_, ?_, ?_, ?_, ?_, ?_, ?_, ?_, ?_, ?_, ?_, ?_, ?_,
    ?_, ?_⟩ <;>
    simp [storeRetained, createRetainedStreamCombi, addSubscriptions,
      removeSubscriptions, subscriptionsByClient, countOffline,
      subscriptionsByTopic, cleanSubscriptions, outgoingEnqueueCombi,
      outgoingUpdate, outgoingClearMessageId, outgoingStream,
      incomingStorePacket, incomingGetPacket, incomingDelPacket, putWill,
      getWill, delWill, streamWill, getClientList, hready]

/-- C3 witness: the amended statement instantiated after destroying the
provisioned empty store. -/
theorem closed_fails_not_ready_witness :
    storeRetained (destroy emptyReadyState) ⟨"t", "p", 0⟩ = .error notReadyMsg :=
  (closed_fails_not_ready emptyReadyState (fun h => by cases h) ⟨"c", none⟩
    ⟨"t", "p", 0⟩ [] [] [] ⟨none, "t", "p", 0, false, false⟩ []
    ⟨1, "t", "p", 1⟩ 1 ⟨"t", "p", 0, false⟩ [] "t" "t").1

end AedesMySQL
